import Mathlib

/-!
Verification of the normal-quantiles demo application.

The repository's numeric core calls the standard normal distribution's
inverse CDF (`norm.ppf`), CDF (`norm.cdf`) and PDF (`norm.pdf`) from an
external statistics library whose implementation is not part of the
repository; following the specification those are modelled here as the
exact real-valued standard normal density, its left-tail integral, and
the inverse of that integral.  The density-curve sampling and the
left-of-cutoff mask are translated directly from the plotting helper in
`src/normal_quantiles.py`.
-/

open MeasureTheory intervalIntegral Real Set

/-- Modelled from the spec: the standard normal probability density
f(x) = (1/√(2π))·e^(−x²/2) (spec §4.2 and glossary; the source calls
`norm.pdf`, whose implementation is not in the repository). -/
noncomputable def normalPDF (x : ℝ) : ℝ :=
  (Real.sqrt (2 * Real.pi))⁻¹ * Real.exp (-(x ^ 2) / 2)

/-- Modelled from the spec: `value_to_order` computes q = Φ(x), the
standard normal CDF (spec §4.1; the source calls `norm.cdf` at line 119,
whose implementation is not in the repository). -/
noncomputable def value_to_order (x : ℝ) : ℝ :=
  ∫ t in Set.Iic x, normalPDF t

/-- Modelled from the spec: the probit function Φ⁻¹, the inverse of the
standard normal CDF (spec §4.1; the source calls `norm.ppf` at line 80,
whose implementation is not in the repository). -/
noncomputable def probit : ℝ → ℝ :=
  Function.invFun value_to_order

/-- Modelled from the spec: the single error kind of the core
(spec §7: "Only one error kind: DomainError"). -/
inductive DomainError : Type
  | domain : DomainError
  deriving DecidableEq

/-- Modelled from the spec: `order_to_value` computes x = Φ⁻¹(q) and
fails with `DomainError` if q ≤ 0 or q ≥ 1 (spec §4.1). -/
noncomputable def order_to_value (q : ℝ) : Except DomainError ℝ :=
  if q ≤ 0 ∨ 1 ≤ q then Except.error DomainError.domain
  else Except.ok (probit q)

/-- The sampled density curve: `sample_count` evenly spaced x-values from
`a` to `b` with the density evaluated at each, translated from
`x = np.linspace(-4, 4, 1000); y = norm.pdf(x)` in `plot_shaded_normal`
(src lines 33-34; the spec's `build_density_curve` with defaults
(-4, 4, 1000)). -/
noncomputable def build_density_curve (a b : ℝ) (n : ℕ) : List (ℝ × ℝ) :=
  (List.range n).map fun i : ℕ =>
    (a + (b - a) * (i : ℝ) / ((n : ℝ) - 1),
      normalPDF (a + (b - a) * (i : ℝ) / ((n : ℝ) - 1)))

/-- The shaded region: every sample whose x-value is ≤ the cutoff, in
order, translated from the boolean mask `x_fill = x[x <= x_q];
y_fill = y[x <= x_q]` in `plot_shaded_normal` (src lines 42-43). -/
noncomputable def shade_left_of (curve : List (ℝ × ℝ)) (cutoff : ℝ) : List (ℝ × ℝ) :=
  curve.filter fun p => decide (p.1 ≤ cutoff)

/-- The x-coordinate of the i-th sample of the default density curve. -/
noncomputable def sampleX (i : ℕ) : ℝ := -4 + 8 * i / 999

/-- Partial sums of the Taylor series of u ↦ e^(−u), used to bracket the
Gaussian integrand by polynomials. -/
noncomputable def expPartial (n : ℕ) (u : ℝ) : ℝ :=
  ∑ k ∈ Finset.range (n + 1), (-u) ^ k / (Nat.factorial k)

theorem sqrt_two_pi_pos : 0 < Real.sqrt (2 * Real.pi) :=
  Real.sqrt_pos.mpr (by positivity)

theorem normalPDF_pos (x : ℝ) : 0 < normalPDF x := by
  unfold normalPDF; positivity

theorem normalPDF_nonneg (x : ℝ) : 0 ≤ normalPDF x := (normalPDF_pos x).le

theorem normalPDF_even (x : ℝ) : normalPDF (-x) = normalPDF x := by
  simp [normalPDF, neg_sq]

theorem normalPDF_le (x : ℝ) : normalPDF x ≤ (Real.sqrt (2 * Real.pi))⁻¹ := by
  have h : Real.exp (-(x ^ 2) / 2) ≤ 1 := by
    rw [Real.exp_le_one_iff]
    nlinarith [sq_nonneg x]
  calc normalPDF x ≤ (Real.sqrt (2 * Real.pi))⁻¹ * 1 := by
        unfold normalPDF
        exact mul_le_mul_of_nonneg_left h (by positivity)
    _ = _ := mul_one _

theorem continuous_normalPDF : Continuous normalPDF := by
  unfold normalPDF
  fun_prop

theorem normalPDF_eq (x : ℝ) :
    normalPDF x = (Real.sqrt (2 * Real.pi))⁻¹ * Real.exp (-(1 / 2 : ℝ) * x ^ 2) := by
  unfold normalPDF
  congr 2
  ring

theorem integrable_normalPDF : Integrable normalPDF := by
  have h : Integrable (fun x : ℝ => Real.exp (-(1 / 2 : ℝ) * x ^ 2)) :=
    integrable_exp_neg_mul_sq (by norm_num)
  have h2 : normalPDF
      = fun x : ℝ => (Real.sqrt (2 * Real.pi))⁻¹ * Real.exp (-(1 / 2 : ℝ) * x ^ 2) :=
    funext normalPDF_eq
  rw [h2]
  exact h.const_mul (Real.sqrt (2 * Real.pi))⁻¹

theorem integral_normalPDF : ∫ x, normalPDF x = 1 := by
  have h : ∫ x : ℝ, Real.exp (-(1 / 2 : ℝ) * x ^ 2) = Real.sqrt (Real.pi / (1 / 2)) :=
    integral_gaussian (1 / 2)
  have h2 : ∫ x, normalPDF x
      = (Real.sqrt (2 * Real.pi))⁻¹ * ∫ x : ℝ, Real.exp (-(1 / 2 : ℝ) * x ^ 2) := by
    rw [← MeasureTheory.integral_mul_left]
    congr 1
    funext x
    exact normalPDF_eq x
  rw [h2, h]
  have h3 : Real.pi / (1 / 2) = 2 * Real.pi := by ring
  rw [h3, inv_mul_cancel₀ (ne_of_gt sqrt_two_pi_pos)]

theorem intervalIntegrable_normalPDF (a b : ℝ) :
    IntervalIntegrable normalPDF volume a b :=
  continuous_normalPDF.intervalIntegrable a b

theorem value_to_order_sub (a b : ℝ) :
    value_to_order b - value_to_order a = ∫ t in a..b, normalPDF t :=
  integral_Iic_sub_Iic integrable_normalPDF.integrableOn integrable_normalPDF.integrableOn

theorem value_to_order_strictMono : StrictMono value_to_order := by
  intro a b hab
  have h := value_to_order_sub a b
  have hpos : 0 < ∫ t in a..b, normalPDF t :=
    intervalIntegral_pos_of_pos_on (intervalIntegrable_normalPDF a b)
      (fun x _ => normalPDF_pos x) hab
  linarith

theorem value_to_order_mono : Monotone value_to_order :=
  value_to_order_strictMono.monotone

theorem value_to_order_add_right (x : ℝ) :
    value_to_order x + ∫ t in Set.Ioi x, normalPDF t = 1 := by
  rw [value_to_order,
    integral_Iic_add_Ioi integrable_normalPDF.integrableOn integrable_normalPDF.integrableOn,
    integral_normalPDF]

theorem value_to_order_zero : value_to_order 0 = 1 / 2 := by
  have h1 : value_to_order 0 = ∫ t in Set.Ioi (0 : ℝ), normalPDF t := by
    rw [value_to_order]
    have h2 : ∫ t in Set.Iic (0 : ℝ), normalPDF t
        = ∫ t in Set.Iic (0 : ℝ), normalPDF (-t) := by
      congr 1; funext t; rw [normalPDF_even]
    rw [h2, integral_comp_neg_Iic, neg_zero]
  have h3 := value_to_order_add_right 0
  rw [← h1] at h3
  linarith

theorem value_to_order_nonneg (x : ℝ) : 0 ≤ value_to_order x :=
  setIntegral_nonneg measurableSet_Iic fun t _ => normalPDF_nonneg t

theorem value_to_order_le_one (x : ℝ) : value_to_order x ≤ 1 := by
  have h := value_to_order_add_right x
  have h2 : 0 ≤ ∫ t in Set.Ioi x, normalPDF t :=
    setIntegral_nonneg measurableSet_Ioi fun t _ => normalPDF_nonneg t
  linarith

theorem value_to_order_pos (x : ℝ) : 0 < value_to_order x :=
  lt_of_le_of_lt (value_to_order_nonneg (x - 1))
    (value_to_order_strictMono (by linarith))

theorem value_to_order_lt_one (x : ℝ) : value_to_order x < 1 :=
  lt_of_lt_of_le (value_to_order_strictMono (lt_add_one x))
    (value_to_order_le_one (x + 1))

theorem value_to_order_neg (x : ℝ) : value_to_order (-x) = 1 - value_to_order x := by
  have h1 : value_to_order (-x) = ∫ t in Set.Ioi x, normalPDF t := by
    rw [value_to_order]
    have h2 : ∫ t in Set.Iic (-x), normalPDF t
        = ∫ t in Set.Iic (-x), normalPDF (-t) := by
      congr 1; funext t; rw [normalPDF_even]
    rw [h2, integral_comp_neg_Iic, neg_neg]
  have h3 := value_to_order_add_right x
  linarith

theorem value_to_order_continuous : Continuous value_to_order := by
  have h : value_to_order = fun x => value_to_order 0 + ∫ t in (0 : ℝ)..x, normalPDF t := by
    funext x
    have := value_to_order_sub 0 x
    linarith
  rw [h]
  exact continuous_const.add
    (intervalIntegral.continuous_primitive (fun a b => intervalIntegrable_normalPDF a b) 0)

theorem exists_value_to_order_gt (q : ℝ) (hq : q < 1) :
    ∃ n : ℕ, q < value_to_order n := by
  have hU : ⋃ n : ℕ, Set.Iic (n : ℝ) = Set.univ := by
    ext x
    simp only [Set.mem_iUnion, Set.mem_Iic, Set.mem_univ, iff_true]
    exact exists_nat_ge x
  have hT : Filter.Tendsto (fun n : ℕ => value_to_order n) Filter.atTop (nhds 1) := by
    have hsm : ∀ n : ℕ, MeasurableSet (Set.Iic (n : ℝ)) := fun n => measurableSet_Iic
    have hmono : Monotone fun n : ℕ => Set.Iic (n : ℝ) :=
      fun m n hmn => Set.Iic_subset_Iic.mpr (by exact_mod_cast hmn)
    have hfi : IntegrableOn normalPDF (⋃ n : ℕ, Set.Iic (n : ℝ)) volume := by
      rw [hU]
      exact integrable_normalPDF.integrableOn
    have h := MeasureTheory.tendsto_setIntegral_of_monotone hsm hmono hfi
    rw [hU] at h
    simpa [value_to_order, integral_normalPDF] using h
  exact (hT.eventually (eventually_gt_nhds hq)).exists

theorem value_to_order_surj (q : ℝ) (h0 : 0 < q) (h1 : q < 1) :
    ∃ x, value_to_order x = q := by
  obtain ⟨n, hn⟩ := exists_value_to_order_gt q h1
  obtain ⟨m, hm⟩ := exists_value_to_order_gt (1 - q) (by linarith)
  have hlow : value_to_order (-(m : ℝ)) < q := by
    rw [value_to_order_neg]; linarith
  have hle : (-(m : ℝ)) ≤ (n : ℝ) := by
    have : (0 : ℝ) ≤ m := Nat.cast_nonneg m
    have : (0 : ℝ) ≤ n := Nat.cast_nonneg n
    linarith
  have hmem : q ∈ Set.Icc (value_to_order (-(m : ℝ))) (value_to_order (n : ℝ)) :=
    ⟨hlow.le, hn.le⟩
  obtain ⟨x, _, hx⟩ := intermediate_value_Icc hle value_to_order_continuous.continuousOn hmem
  exact ⟨x, hx⟩

theorem value_to_order_probit (q : ℝ) (h0 : 0 < q) (h1 : q < 1) :
    value_to_order (probit q) = q :=
  Function.invFun_eq (value_to_order_surj q h0 h1)

theorem order_to_value_ok (q : ℝ) (h0 : 0 < q) (h1 : q < 1) :
    order_to_value q = Except.ok (probit q) := by
  rw [order_to_value, if_neg]
  push_neg
  exact ⟨h0, h1⟩

theorem probit_half : probit (1 / 2) = 0 := by
  have h : value_to_order (probit (1 / 2)) = value_to_order 0 := by
    rw [value_to_order_probit (1 / 2) (by norm_num) (by norm_num), value_to_order_zero]
  exact value_to_order_strictMono.injective h

theorem probit_lt_of_lt (q a : ℝ) (h0 : 0 < q) (h1 : q < 1)
    (h : q < value_to_order a) : probit q < a := by
  have := value_to_order_probit q h0 h1
  have h2 : value_to_order (probit q) < value_to_order a := by rw [this]; exact h
  exact value_to_order_strictMono.lt_iff_lt.mp h2

theorem lt_probit_of_lt (q a : ℝ) (h0 : 0 < q) (h1 : q < 1)
    (h : value_to_order a < q) : a < probit q := by
  have := value_to_order_probit q h0 h1
  have h2 : value_to_order a < value_to_order (probit q) := by rw [this]; exact h
  exact value_to_order_strictMono.lt_iff_lt.mp h2

theorem expPartial_zero (n : ℕ) : expPartial n 0 = 1 := by
  unfold expPartial
  rw [Finset.sum_eq_single 0]
  · simp
  · intro k _ hk
    rw [neg_zero, zero_pow hk, zero_div]
  · intro h
    exact absurd (Finset.mem_range.mpr (Nat.succ_pos n)) h

theorem continuous_expPartial (n : ℕ) : Continuous (expPartial n) := by
  unfold expPartial
  exact continuous_finset_sum _ fun k _ => (continuous_neg.pow k).div_const _

theorem hasDerivAt_expPartial (n : ℕ) (u : ℝ) :
    HasDerivAt (expPartial (n + 1)) (-expPartial n u) u := by
  have hterm : ∀ k : ℕ, HasDerivAt (fun v : ℝ => (-v) ^ k / (Nat.factorial k))
      ((k * (-u) ^ (k - 1) * (-1)) / (Nat.factorial k)) u :=
    fun k => ((hasDerivAt_neg u).pow k).div_const _
  have hsum : HasDerivAt (expPartial (n + 1))
      (∑ k ∈ Finset.range (n + 2), (k * (-u) ^ (k - 1) * (-1)) / (Nat.factorial k)) u := by
    have h : HasDerivAt
        (fun v : ℝ => ∑ k ∈ Finset.range (n + 1 + 1), (-v) ^ k / (Nat.factorial k))
        (∑ k ∈ Finset.range (n + 1 + 1),
          ((k : ℝ) * (-u) ^ (k - 1) * (-1)) / (Nat.factorial k)) u :=
      HasDerivAt.sum fun k _ => hterm k
    exact h
  have heq : (∑ k ∈ Finset.range (n + 2), (k * (-u) ^ (k - 1) * (-1)) / (Nat.factorial k))
      = -expPartial n u := by
    rw [Finset.sum_range_succ']
    have h0 : ((0 : ℕ) * (-u) ^ (0 - 1) * (-1)) / ((Nat.factorial 0 : ℕ) : ℝ) = 0 := by
      simp
    rw [h0, add_zero]
    have hstep : ∀ i ∈ Finset.range (n + 1),
        (((i + 1 : ℕ) : ℝ) * (-u) ^ (i + 1 - 1) * (-1)) / ((Nat.factorial (i + 1) : ℕ) : ℝ)
          = -((-u) ^ i / (Nat.factorial i)) := by
      intro i _
      rw [Nat.factorial_succ, Nat.add_sub_cancel]
      push_cast
      have hi : ((i : ℝ) + 1) ≠ 0 := by positivity
      have hf : ((Nat.factorial i : ℕ) : ℝ) ≠ 0 := by
        exact_mod_cast Nat.factorial_ne_zero i
      field_simp
      ring
    rw [Finset.sum_congr rfl hstep, expPartial, ← Finset.sum_neg_distrib]
  rw [heq] at hsum
  exact hsum

theorem expPartial_alternating (n : ℕ) (u : ℝ) (hu : 0 ≤ u) :
    0 ≤ (-1 : ℝ) ^ (n + 1) * (Real.exp (-u) - expPartial n u) := by
  induction n generalizing u hu with
  | zero =>
    have h1 : expPartial 0 u = 1 := by unfold expPartial; simp
    have h2 : Real.exp (-u) ≤ 1 := Real.exp_le_one_iff.mpr (by linarith)
    rw [h1, pow_one]
    nlinarith
  | succ n ih =>
    have hFd : ∀ v : ℝ, HasDerivAt
        (fun w : ℝ => (-1 : ℝ) ^ (n + 2) * (Real.exp (-w) - expPartial (n + 1) w))
        ((-1 : ℝ) ^ (n + 1) * (Real.exp (-v) - expPartial n v)) v := by
      intro v
      have h1 : HasDerivAt (fun w : ℝ => Real.exp (-w)) (-Real.exp (-v)) v := by
        simpa using (Real.hasDerivAt_exp (-v)).comp v (hasDerivAt_neg v)
      have h2 := hasDerivAt_expPartial n v
      have h3 := (h1.sub h2).const_mul ((-1 : ℝ) ^ (n + 2))
      convert h3 using 1
      ring
    have hmono : MonotoneOn
        (fun w : ℝ => (-1 : ℝ) ^ (n + 2) * (Real.exp (-w) - expPartial (n + 1) w))
        (Set.Ici 0) := by
      apply monotoneOn_of_deriv_nonneg (convex_Ici 0)
      · exact fun v _ => (hFd v).continuousAt.continuousWithinAt
      · exact fun v _ => (hFd v).differentiableAt.differentiableWithinAt
      · intro v hv
        rw [interior_Ici] at hv
        rw [(hFd v).deriv]
        exact ih v (le_of_lt hv)
    have hF0 : (-1 : ℝ) ^ (n + 2) * (Real.exp (-(0 : ℝ)) - expPartial (n + 1) 0) = 0 := by
      rw [expPartial_zero, neg_zero, Real.exp_zero, sub_self, mul_zero]
    have h := hmono (Set.left_mem_Ici) (Set.mem_Ici.mpr hu) hu
    simp only at h
    rw [hF0] at h
    exact h

theorem exp_neg_le_expPartial (n : ℕ) (hn : Even n) (u : ℝ) (hu : 0 ≤ u) :
    Real.exp (-u) ≤ expPartial n u := by
  have h := expPartial_alternating n u hu
  have hpow : (-1 : ℝ) ^ (n + 1) = -1 := (hn.add_one).neg_one_pow
  rw [hpow] at h
  nlinarith

theorem expPartial_le_exp_neg (n : ℕ) (hn : Odd n) (u : ℝ) (hu : 0 ≤ u) :
    expPartial n u ≤ Real.exp (-u) := by
  have h := expPartial_alternating n u hu
  have hpow : (-1 : ℝ) ^ (n + 1) = 1 := (hn.add_one).neg_one_pow
  rw [hpow] at h
  nlinarith

theorem sqrt_two_pi_lb : (2.50662 : ℝ) ≤ Real.sqrt (2 * Real.pi) := by
  rw [Real.le_sqrt' (by norm_num)]
  nlinarith [Real.pi_gt_d6]

theorem sqrt_two_pi_ub : Real.sqrt (2 * Real.pi) ≤ (2.50663 : ℝ) := by
  rw [Real.sqrt_le_left (by norm_num)]
  nlinarith [Real.pi_lt_d6]

theorem inv_sqrt_two_pi_le : (Real.sqrt (2 * Real.pi))⁻¹ ≤ (0.399 : ℝ) := by
  have h := sqrt_two_pi_lb
  have hpos := sqrt_two_pi_pos
  rw [inv_le_comm₀ hpos (by norm_num)]
  calc ((0.399 : ℝ))⁻¹ ≤ 2.50662 := by norm_num
    _ ≤ Real.sqrt (2 * Real.pi) := h

theorem normalPDF_le_num (x : ℝ) : normalPDF x ≤ (0.399 : ℝ) :=
  (normalPDF_le x).trans inv_sqrt_two_pi_le

theorem expPartial_comp_sq (n : ℕ) (t : ℝ) :
    expPartial n (t ^ 2 / 2)
      = ∑ k ∈ Finset.range (n + 1), (-(1 : ℝ) / 2) ^ k / (Nat.factorial k) * t ^ (2 * k) := by
  unfold expPartial
  refine Finset.sum_congr rfl fun k _ => ?_
  have h : -(t ^ 2 / 2) = (-(1 : ℝ) / 2) * t ^ 2 := by ring
  rw [h, mul_pow, ← pow_mul]
  ring

theorem integral_expPartial_sq (n : ℕ) (a : ℝ) :
    ∫ t in (0 : ℝ)..a, expPartial n (t ^ 2 / 2)
      = ∑ k ∈ Finset.range (n + 1),
          (-(1 : ℝ) / 2) ^ k / (Nat.factorial k) * (a ^ (2 * k + 1) / (2 * k + 1)) := by
  have hcong : ∫ t in (0 : ℝ)..a, expPartial n (t ^ 2 / 2)
      = ∫ t in (0 : ℝ)..a,
          ∑ k ∈ Finset.range (n + 1), (-(1 : ℝ) / 2) ^ k / (Nat.factorial k) * t ^ (2 * k) :=
    intervalIntegral.integral_congr fun t _ => expPartial_comp_sq n t
  rw [hcong]
  rw [intervalIntegral.integral_finset_sum
      (fun k _ => ((continuous_const.mul (continuous_pow (2 * k))).intervalIntegrable 0 a))]
  refine Finset.sum_congr rfl fun k _ => ?_
  rw [intervalIntegral.integral_const_mul, integral_pow]
  have h0 : (0 : ℝ) ^ (2 * k + 1) = 0 := by
    exact zero_pow (Nat.succ_ne_zero _)
  rw [h0]
  push_cast
  ring

theorem gauss_integral_le_poly (n : ℕ) (hn : Even n) (a : ℝ) (ha : 0 ≤ a) :
    ∫ t in (0 : ℝ)..a, Real.exp (-t ^ 2 / 2)
      ≤ ∑ k ∈ Finset.range (n + 1),
          (-(1 : ℝ) / 2) ^ k / (Nat.factorial k) * (a ^ (2 * k + 1) / (2 * k + 1)) := by
  rw [← integral_expPartial_sq]
  apply intervalIntegral.integral_mono_on ha
    ((Continuous.intervalIntegrable (by fun_prop) 0 a))
    (((continuous_expPartial n).comp (by fun_prop)).intervalIntegrable 0 a)
  intro t _
  have h : -t ^ 2 / 2 = -(t ^ 2 / 2) := by ring
  rw [h]
  exact exp_neg_le_expPartial n hn _ (by positivity)

theorem poly_le_gauss_integral (n : ℕ) (hn : Odd n) (a : ℝ) (ha : 0 ≤ a) :
    ∑ k ∈ Finset.range (n + 1),
        (-(1 : ℝ) / 2) ^ k / (Nat.factorial k) * (a ^ (2 * k + 1) / (2 * k + 1))
      ≤ ∫ t in (0 : ℝ)..a, Real.exp (-t ^ 2 / 2) := by
  rw [← integral_expPartial_sq]
  apply intervalIntegral.integral_mono_on ha
    (((continuous_expPartial n).comp (by fun_prop)).intervalIntegrable 0 a)
    ((Continuous.intervalIntegrable (by fun_prop) 0 a))
  intro t _
  have h : -t ^ 2 / 2 = -(t ^ 2 / 2) := by ring
  rw [h]
  exact expPartial_le_exp_neg n hn _ (by positivity)

theorem value_to_order_eq_half_add (a : ℝ) :
    value_to_order a
      = 1 / 2 + (Real.sqrt (2 * Real.pi))⁻¹ * ∫ t in (0 : ℝ)..a, Real.exp (-t ^ 2 / 2) := by
  have h := value_to_order_sub 0 a
  rw [value_to_order_zero] at h
  have h2 : ∫ t in (0 : ℝ)..a, normalPDF t
      = (Real.sqrt (2 * Real.pi))⁻¹ * ∫ t in (0 : ℝ)..a, Real.exp (-t ^ 2 / 2) := by
    rw [← intervalIntegral.integral_const_mul]
    apply intervalIntegral.integral_congr
    intro t _
    unfold normalPDF
    ring_nf
  linarith

theorem gauss_integral_nonneg (a : ℝ) (ha : 0 ≤ a) :
    0 ≤ ∫ t in (0 : ℝ)..a, Real.exp (-t ^ 2 / 2) :=
  intervalIntegral.integral_nonneg ha fun t _ => (Real.exp_pos _).le

theorem inv_sqrt_le_inv_lb : (Real.sqrt (2 * Real.pi))⁻¹ ≤ ((2.50662 : ℝ))⁻¹ :=
  inv_le_inv_of_le (by norm_num) sqrt_two_pi_lb

theorem inv_ub_le_inv_sqrt : ((2.50663 : ℝ))⁻¹ ≤ (Real.sqrt (2 * Real.pi))⁻¹ :=
  inv_le_inv_of_le sqrt_two_pi_pos sqrt_two_pi_ub

set_option maxHeartbeats 1000000 in
theorem value_to_order_1959_lt : value_to_order 1.959 < 0.975 := by
  have hU := gauss_integral_le_poly 12 (by decide) 1.959 (by norm_num)
  have hval : (∑ k ∈ Finset.range 13,
      (-(1 : ℝ) / 2) ^ k / (Nat.factorial k) * ((1.959 : ℝ) ^ (2 * k + 1) / (2 * k + 1)))
      ≤ 1.19051 := by
    simp only [Finset.sum_range_succ, Finset.sum_range_zero, Nat.factorial]
    norm_num
  have hI0 := gauss_integral_nonneg 1.959 (by norm_num)
  have hIub : ∫ t in (0 : ℝ)..1.959, Real.exp (-t ^ 2 / 2) ≤ 1.19051 := hU.trans hval
  rw [value_to_order_eq_half_add]
  have h1 : (Real.sqrt (2 * Real.pi))⁻¹ * ∫ t in (0 : ℝ)..1.959, Real.exp (-t ^ 2 / 2)
      ≤ ((2.50662 : ℝ))⁻¹ * 1.19051 := by
    calc (Real.sqrt (2 * Real.pi))⁻¹ * ∫ t in (0 : ℝ)..1.959, Real.exp (-t ^ 2 / 2)
        ≤ ((2.50662 : ℝ))⁻¹ * ∫ t in (0 : ℝ)..1.959, Real.exp (-t ^ 2 / 2) :=
          mul_le_mul_of_nonneg_right inv_sqrt_le_inv_lb hI0
      _ ≤ ((2.50662 : ℝ))⁻¹ * 1.19051 :=
          mul_le_mul_of_nonneg_left hIub (by norm_num)
  have h2 : (1 : ℝ) / 2 + ((2.50662 : ℝ))⁻¹ * 1.19051 < 0.975 := by norm_num
  linarith

set_option maxHeartbeats 1000000 in
theorem value_to_order_1961_gt : (0.975 : ℝ) < value_to_order 1.961 := by
  have hL := poly_le_gauss_integral 11 (by decide) 1.961 (by norm_num)
  have hval : (1.19079 : ℝ) ≤ ∑ k ∈ Finset.range 12,
      (-(1 : ℝ) / 2) ^ k / (Nat.factorial k) * ((1.961 : ℝ) ^ (2 * k + 1) / (2 * k + 1)) := by
    simp only [Finset.sum_range_succ, Finset.sum_range_zero, Nat.factorial]
    norm_num
  have hIlb : (1.19079 : ℝ) ≤ ∫ t in (0 : ℝ)..1.961, Real.exp (-t ^ 2 / 2) := hval.trans hL
  rw [value_to_order_eq_half_add]
  have h1 : ((2.50663 : ℝ))⁻¹ * 1.19079
      ≤ (Real.sqrt (2 * Real.pi))⁻¹ * ∫ t in (0 : ℝ)..1.961, Real.exp (-t ^ 2 / 2) := by
    calc ((2.50663 : ℝ))⁻¹ * 1.19079
        ≤ (Real.sqrt (2 * Real.pi))⁻¹ * 1.19079 :=
          mul_le_mul_of_nonneg_right inv_ub_le_inv_sqrt (by norm_num)
      _ ≤ (Real.sqrt (2 * Real.pi))⁻¹ * ∫ t in (0 : ℝ)..1.961, Real.exp (-t ^ 2 / 2) :=
          mul_le_mul_of_nonneg_left hIlb (le_of_lt (by positivity))
  have h2 : (0.975 : ℝ) < 1 / 2 + ((2.50663 : ℝ))⁻¹ * 1.19079 := by norm_num
  linarith

set_option maxHeartbeats 1000000 in
theorem value_to_order_06745_lb : (0.749 : ℝ) ≤ value_to_order 0.6745 := by
  have hL := poly_le_gauss_integral 3 (by decide) 0.6745 (by norm_num)
  have hval : (0.62665 : ℝ) ≤ ∑ k ∈ Finset.range 4,
      (-(1 : ℝ) / 2) ^ k / (Nat.factorial k) * ((0.6745 : ℝ) ^ (2 * k + 1) / (2 * k + 1)) := by
    simp only [Finset.sum_range_succ, Finset.sum_range_zero, Nat.factorial]
    norm_num
  have hIlb : (0.62665 : ℝ) ≤ ∫ t in (0 : ℝ)..0.6745, Real.exp (-t ^ 2 / 2) := hval.trans hL
  rw [value_to_order_eq_half_add]
  have h1 : ((2.50663 : ℝ))⁻¹ * 0.62665
      ≤ (Real.sqrt (2 * Real.pi))⁻¹ * ∫ t in (0 : ℝ)..0.6745, Real.exp (-t ^ 2 / 2) := by
    calc ((2.50663 : ℝ))⁻¹ * 0.62665
        ≤ (Real.sqrt (2 * Real.pi))⁻¹ * 0.62665 :=
          mul_le_mul_of_nonneg_right inv_ub_le_inv_sqrt (by norm_num)
      _ ≤ (Real.sqrt (2 * Real.pi))⁻¹ * ∫ t in (0 : ℝ)..0.6745, Real.exp (-t ^ 2 / 2) :=
          mul_le_mul_of_nonneg_left hIlb (le_of_lt (by positivity))
  have h2 : (0.749 : ℝ) ≤ 1 / 2 + ((2.50663 : ℝ))⁻¹ * 0.62665 := by norm_num
  linarith

set_option maxHeartbeats 1000000 in
theorem value_to_order_06745_ub : value_to_order 0.6745 ≤ (0.751 : ℝ) := by
  have hU := gauss_integral_le_poly 4 (by decide) 0.6745 (by norm_num)
  have hval : (∑ k ∈ Finset.range 5,
      (-(1 : ℝ) / 2) ^ k / (Nat.factorial k) * ((0.6745 : ℝ) ^ (2 * k + 1) / (2 * k + 1)))
      ≤ 0.62667 := by
    simp only [Finset.sum_range_succ, Finset.sum_range_zero, Nat.factorial]
    norm_num
  have hI0 := gauss_integral_nonneg 0.6745 (by norm_num)
  have hIub : ∫ t in (0 : ℝ)..0.6745, Real.exp (-t ^ 2 / 2) ≤ 0.62667 := hU.trans hval
  rw [value_to_order_eq_half_add]
  have h1 : (Real.sqrt (2 * Real.pi))⁻¹ * ∫ t in (0 : ℝ)..0.6745, Real.exp (-t ^ 2 / 2)
      ≤ ((2.50662 : ℝ))⁻¹ * 0.62667 := by
    calc (Real.sqrt (2 * Real.pi))⁻¹ * ∫ t in (0 : ℝ)..0.6745, Real.exp (-t ^ 2 / 2)
        ≤ ((2.50662 : ℝ))⁻¹ * ∫ t in (0 : ℝ)..0.6745, Real.exp (-t ^ 2 / 2) :=
          mul_le_mul_of_nonneg_right inv_sqrt_le_inv_lb hI0
      _ ≤ ((2.50662 : ℝ))⁻¹ * 0.62667 :=
          mul_le_mul_of_nonneg_left hIub (by norm_num)
  have h2 : (1 : ℝ) / 2 + ((2.50662 : ℝ))⁻¹ * 0.62667 ≤ 0.751 := by norm_num
  linarith

set_option maxHeartbeats 2000000 in
theorem value_to_order_35_gt : (0.999 : ℝ) < value_to_order 3.5 := by
  have hL := poly_le_gauss_integral 19 (by decide) 3.5 (by norm_num)
  have hval : (1.25257 : ℝ) ≤ ∑ k ∈ Finset.range 20,
      (-(1 : ℝ) / 2) ^ k / (Nat.factorial k) * ((3.5 : ℝ) ^ (2 * k + 1) / (2 * k + 1)) := by
    simp only [Finset.sum_range_succ, Finset.sum_range_zero, Nat.factorial]
    norm_num
  have hIlb : (1.25257 : ℝ) ≤ ∫ t in (0 : ℝ)..3.5, Real.exp (-t ^ 2 / 2) := hval.trans hL
  rw [value_to_order_eq_half_add]
  have h1 : ((2.50663 : ℝ))⁻¹ * 1.25257
      ≤ (Real.sqrt (2 * Real.pi))⁻¹ * ∫ t in (0 : ℝ)..3.5, Real.exp (-t ^ 2 / 2) := by
    calc ((2.50663 : ℝ))⁻¹ * 1.25257
        ≤ (Real.sqrt (2 * Real.pi))⁻¹ * 1.25257 :=
          mul_le_mul_of_nonneg_right inv_ub_le_inv_sqrt (by norm_num)
      _ ≤ (Real.sqrt (2 * Real.pi))⁻¹ * ∫ t in (0 : ℝ)..3.5, Real.exp (-t ^ 2 / 2) :=
          mul_le_mul_of_nonneg_left hIlb (le_of_lt (by positivity))
  have h2 : (0.999 : ℝ) < 1 / 2 + ((2.50663 : ℝ))⁻¹ * 1.25257 := by norm_num
  linarith

theorem value_to_order_neg_35_lt : value_to_order (-3.5) < (0.001 : ℝ) := by
  have h := value_to_order_neg 3.5
  have h2 := value_to_order_35_gt
  rw [h]
  linarith

theorem value_to_order_neg_four_lt : value_to_order (-4) < (0.001 : ℝ) :=
  lt_trans (value_to_order_strictMono (by norm_num)) value_to_order_neg_35_lt

theorem value_to_order_four_gt : (0.999 : ℝ) < value_to_order 4 := by
  have h := value_to_order_neg 4
  have h2 := value_to_order_neg_four_lt
  linarith [value_to_order_neg 4]

theorem build_density_curve_default :
    build_density_curve (-4) 4 1000
      = (List.range 1000).map fun i => (sampleX i, normalPDF (sampleX i)) := by
  have h : (fun i : ℕ =>
        ((-4 : ℝ) + (4 - (-4)) * i / ((1000 : ℕ) - 1 : ℝ),
          normalPDF ((-4 : ℝ) + (4 - (-4)) * i / ((1000 : ℕ) - 1 : ℝ))))
      = fun i : ℕ => (sampleX i, normalPDF (sampleX i)) := by
    funext i
    unfold sampleX
    norm_num
  unfold build_density_curve
  rw [h]

theorem sampleX_lt (i j : ℕ) (hij : i < j) : sampleX i < sampleX j := by
  unfold sampleX
  have h : (i : ℝ) < j := by exact_mod_cast hij
  nlinarith

theorem sampleX_succ_sub (i : ℕ) : sampleX (i + 1) - sampleX i = 8 / 999 := by
  unfold sampleX
  push_cast
  ring

theorem sampleX_zero : sampleX 0 = -4 := by
  unfold sampleX; norm_num

theorem sampleX_999 : sampleX 999 = 4 := by
  unfold sampleX; norm_num

theorem sampleX_bounds (i : ℕ) (h : i ≤ 999) : -4 ≤ sampleX i ∧ sampleX i ≤ 4 := by
  unfold sampleX
  have h1 : (0 : ℝ) ≤ i := Nat.cast_nonneg i
  have h2 : (i : ℝ) ≤ 999 := by exact_mod_cast h
  constructor <;> nlinarith

theorem sampleX_neg (i : ℕ) (h : i ≤ 499) : sampleX i < 0 := by
  unfold sampleX
  have h2 : (i : ℝ) ≤ 499 := by exact_mod_cast h
  nlinarith [show (0 : ℝ) ≤ (i : ℝ) from Nat.cast_nonneg i]

theorem sampleX_reflect (j : ℕ) (h : j ≤ 999) : sampleX (999 - j) = -sampleX j := by
  unfold sampleX
  have hc : ((999 - j : ℕ) : ℝ) = 999 - (j : ℝ) := by
    push_cast [Nat.cast_sub h]
    ring
  rw [hc]
  ring

theorem mem_build_density_curve (p : ℝ × ℝ) :
    p ∈ build_density_curve (-4) 4 1000
      ↔ ∃ i, i < 1000 ∧ p = (sampleX i, normalPDF (sampleX i)) := by
  rw [build_density_curve_default, List.mem_map]
  constructor
  · rintro ⟨i, hi, rfl⟩
    exact ⟨i, List.mem_range.mp hi, rfl⟩
  · rintro ⟨i, hi, rfl⟩
    exact ⟨i, List.mem_range.mpr hi, rfl⟩

theorem curve_pairwise :
    List.Pairwise (fun p q : ℝ × ℝ => p.1 < q.1) (build_density_curve (-4) 4 1000) := by
  rw [build_density_curve_default]
  exact List.Pairwise.map _ (fun a b hab => by simpa using sampleX_lt a b hab)
    (List.pairwise_lt_range 1000)

theorem curve_length : (build_density_curve (-4) 4 1000).length = 1000 := by
  rw [build_density_curve_default, List.length_map, List.length_range]

theorem sorted_filter_eq_take (c : ℝ) :
    ∀ l : List (ℝ × ℝ), List.Pairwise (fun p q : ℝ × ℝ => p.1 < q.1) l →
      l.filter (fun p => decide (p.1 ≤ c))
        = l.take (l.filter (fun p => decide (p.1 ≤ c))).length := by
  intro l
  induction l with
  | nil => intro _; simp
  | cons a t ih =>
    intro hp
    rw [List.pairwise_cons] at hp
    by_cases hc : a.1 ≤ c
    · rw [List.filter_cons_of_pos (by simpa using hc)]
      rw [List.length_cons, List.take_succ_cons]
      rw [← ih hp.2]
    · rw [List.filter_cons_of_neg (by simpa using hc)]
      have hnil : t.filter (fun p => decide (p.1 ≤ c)) = [] := by
        rw [List.filter_eq_nil_iff]
        intro q hq
        have h2 := hp.1 q hq
        simp only [decide_eq_true_eq]
        intro hq2
        linarith [not_le.mp hc]
      rw [hnil]
      simp

theorem shade_left_of_eq_take (c : ℝ) :
    shade_left_of (build_density_curve (-4) 4 1000) c
      = (build_density_curve (-4) 4 1000).take
          (shade_left_of (build_density_curve (-4) 4 1000) c).length :=
  sorted_filter_eq_take c _ curve_pairwise

theorem list_map_range_sum (f : ℕ → ℝ) (n : ℕ) :
    ((List.range n).map f).sum = ∑ i ∈ Finset.range n, f i := by
  induction n with
  | zero => simp
  | succ n ih =>
    rw [List.range_succ, List.map_append, List.sum_append, Finset.sum_range_succ, ih]
    simp

theorem curve_snd_sum :
    ((build_density_curve (-4) 4 1000).map Prod.snd).sum
      = ∑ i ∈ Finset.range 1000, normalPDF (sampleX i) := by
  rw [build_density_curve_default, List.map_map]
  exact list_map_range_sum _ 1000

theorem sum_pdf_split :
    ∑ i ∈ Finset.range 1000, normalPDF (sampleX i)
      = 2 * ∑ i ∈ Finset.range 500, normalPDF (sampleX i) := by
  have h1 : ∑ i ∈ Finset.range 1000, normalPDF (sampleX i)
      = ∑ i ∈ Finset.Ico 0 500, normalPDF (sampleX i)
        + ∑ i ∈ Finset.Ico 500 1000, normalPDF (sampleX i) := by
    rw [Finset.sum_Ico_consecutive _ (Nat.zero_le 500) (by norm_num), Finset.range_eq_Ico]
  have h2 : ∑ i ∈ Finset.Ico 500 1000, normalPDF (sampleX i)
      = ∑ i ∈ Finset.range 500, normalPDF (sampleX (500 + i)) := by
    rw [Finset.sum_Ico_eq_sum_range]
  have h3 : ∑ i ∈ Finset.range 500, normalPDF (sampleX (500 + i))
      = ∑ i ∈ Finset.range 500, normalPDF (sampleX i) := by
    rw [← Finset.sum_range_reflect (fun j => normalPDF (sampleX (500 + j))) 500]
    refine Finset.sum_congr rfl fun j hj => ?_
    have hj' : j < 500 := Finset.mem_range.mp hj
    have he : 500 + (500 - 1 - j) = 999 - j := by omega
    rw [he, sampleX_reflect j (by omega), normalPDF_even]
  rw [h1, h2, h3, Finset.range_eq_Ico]
  ring

theorem normalPDF_mono_nonpos (a b : ℝ) (hab : a ≤ b) (hb : b ≤ 0) :
    normalPDF a ≤ normalPDF b := by
  unfold normalPDF
  apply mul_le_mul_of_nonneg_left _ (by positivity)
  apply Real.exp_le_exp.mpr
  nlinarith

theorem riemann_lower :
    value_to_order (sampleX 499) - value_to_order (sampleX 0)
      ≤ (8 / 999 : ℝ) * ∑ i ∈ Finset.range 500, normalPDF (sampleX i) := by
  have htel : ∑ i ∈ Finset.range 499, ∫ t in (sampleX i)..(sampleX (i + 1)), normalPDF t
      = ∫ t in (sampleX 0)..(sampleX 499), normalPDF t :=
    intervalIntegral.sum_integral_adjacent_intervals fun k _ => intervalIntegrable_normalPDF _ _
  have hstep : ∀ i ∈ Finset.range 499,
      ∫ t in (sampleX i)..(sampleX (i + 1)), normalPDF t
        ≤ (8 / 999 : ℝ) * normalPDF (sampleX (i + 1)) := by
    intro i hi
    have hi' : i < 499 := Finset.mem_range.mp hi
    have hle : sampleX i ≤ sampleX (i + 1) := (sampleX_lt i (i + 1) (Nat.lt_succ_self i)).le
    have hneg : sampleX (i + 1) ≤ 0 := (sampleX_neg (i + 1) (by omega)).le
    calc ∫ t in (sampleX i)..(sampleX (i + 1)), normalPDF t
        ≤ ∫ _t in (sampleX i)..(sampleX (i + 1)), normalPDF (sampleX (i + 1)) :=
          intervalIntegral.integral_mono_on hle (intervalIntegrable_normalPDF _ _)
            intervalIntegrable_const
            (fun t ht => normalPDF_mono_nonpos t _ ht.2 hneg)
      _ = (sampleX (i + 1) - sampleX i) * normalPDF (sampleX (i + 1)) := by
          rw [intervalIntegral.integral_const]
          simp [smul_eq_mul]
      _ = (8 / 999 : ℝ) * normalPDF (sampleX (i + 1)) := by
          rw [sampleX_succ_sub]
  have hsum : ∫ t in (sampleX 0)..(sampleX 499), normalPDF t
      ≤ ∑ i ∈ Finset.range 499, (8 / 999 : ℝ) * normalPDF (sampleX (i + 1)) := by
    rw [← htel]
    exact Finset.sum_le_sum hstep
  have h500 : (500 : ℕ) = 499 + 1 := by norm_num
  have hshift : ∑ i ∈ Finset.range 499, (8 / 999 : ℝ) * normalPDF (sampleX (i + 1))
      ≤ ∑ i ∈ Finset.range 500, (8 / 999 : ℝ) * normalPDF (sampleX i) := by
    rw [h500, Finset.sum_range_succ' (fun i => (8 / 999 : ℝ) * normalPDF (sampleX i)) 499]
    have hnn : 0 ≤ (8 / 999 : ℝ) * normalPDF (sampleX 0) :=
      mul_nonneg (by norm_num) (normalPDF_nonneg (sampleX 0))
    linarith
  have hVsub := value_to_order_sub (sampleX 0) (sampleX 499)
  rw [Finset.mul_sum]
  linarith

theorem riemann_upper :
    (8 / 999 : ℝ) * ∑ i ∈ Finset.range 500, normalPDF (sampleX i)
      ≤ value_to_order (sampleX 499) - value_to_order (sampleX 0)
        + (8 / 999 : ℝ) * 0.399 := by
  have htel : ∑ i ∈ Finset.range 499, ∫ t in (sampleX i)..(sampleX (i + 1)), normalPDF t
      = ∫ t in (sampleX 0)..(sampleX 499), normalPDF t :=
    intervalIntegral.sum_integral_adjacent_intervals fun k _ => intervalIntegrable_normalPDF _ _
  have hstep : ∀ i ∈ Finset.range 499,
      (8 / 999 : ℝ) * normalPDF (sampleX i)
        ≤ ∫ t in (sampleX i)..(sampleX (i + 1)), normalPDF t := by
    intro i hi
    have hi' : i < 499 := Finset.mem_range.mp hi
    have hle : sampleX i ≤ sampleX (i + 1) := (sampleX_lt i (i + 1) (Nat.lt_succ_self i)).le
    have hneg : sampleX (i + 1) ≤ 0 := (sampleX_neg (i + 1) (by omega)).le
    calc (8 / 999 : ℝ) * normalPDF (sampleX i)
        = (sampleX (i + 1) - sampleX i) * normalPDF (sampleX i) := by
          rw [sampleX_succ_sub]
      _ = ∫ _t in (sampleX i)..(sampleX (i + 1)), normalPDF (sampleX i) := by
          rw [intervalIntegral.integral_const]
          simp [smul_eq_mul]
      _ ≤ ∫ t in (sampleX i)..(sampleX (i + 1)), normalPDF t :=
          intervalIntegral.integral_mono_on hle intervalIntegrable_const
            (intervalIntegrable_normalPDF _ _)
            (fun t ht => normalPDF_mono_nonpos (sampleX i) t ht.1 (le_trans ht.2 hneg))
  have hsum : ∑ i ∈ Finset.range 499, (8 / 999 : ℝ) * normalPDF (sampleX i)
      ≤ ∫ t in (sampleX 0)..(sampleX 499), normalPDF t := by
    rw [← htel]
    exact Finset.sum_le_sum hstep
  have h500 : (500 : ℕ) = 499 + 1 := by norm_num
  have hlast : (8 / 999 : ℝ) * normalPDF (sampleX 499) ≤ (8 / 999 : ℝ) * 0.399 :=
    mul_le_mul_of_nonneg_left (normalPDF_le_num _) (by norm_num)
  have hVsub := value_to_order_sub (sampleX 0) (sampleX 499)
  rw [Finset.mul_sum, h500, Finset.sum_range_succ]
  linarith

theorem value_to_order_X499_lb :
    1 / 2 - (4 / 999 : ℝ) * 0.399 ≤ value_to_order (sampleX 499) := by
  have hsub := value_to_order_sub (sampleX 499) 0
  have hle : sampleX 499 ≤ 0 := (sampleX_neg 499 le_rfl).le
  have hb : ∫ t in (sampleX 499)..(0 : ℝ), normalPDF t ≤ (0 - sampleX 499) * 0.399 := by
    calc ∫ t in (sampleX 499)..(0 : ℝ), normalPDF t
        ≤ ∫ _t in (sampleX 499)..(0 : ℝ), (0.399 : ℝ) :=
          intervalIntegral.integral_mono_on hle (intervalIntegrable_normalPDF _ _)
            intervalIntegrable_const (fun t _ => normalPDF_le_num t)
      _ = (0 - sampleX 499) * 0.399 := by
          rw [intervalIntegral.integral_const]
          simp [smul_eq_mul]
  have hX : sampleX 499 = -(4 / 999 : ℝ) := by
    unfold sampleX
    norm_num
  rw [value_to_order_zero] at hsub
  rw [hX] at hsub hb ⊢
  linarith

theorem riemann_sum_bounds :
    |((build_density_curve (-4) 4 1000).map Prod.snd).sum * (8 / 999) - 1| ≤ 1 / 100 := by
  rw [curve_snd_sum, sum_pdf_split]
  have hlow := riemann_lower
  have hup := riemann_upper
  have h1 : value_to_order (sampleX 0) < 0.001 := by
    rw [sampleX_zero]
    exact value_to_order_neg_four_lt
  have h0 : 0 < value_to_order (sampleX 0) := value_to_order_pos _
  have h2 : value_to_order (sampleX 499) ≤ 1 / 2 := by
    rw [← value_to_order_zero]
    exact value_to_order_mono (sampleX_neg 499 le_rfl).le
  have h3 := value_to_order_X499_lb
  rw [abs_le]
  constructor <;> nlinarith

theorem curve_fst_bounds (p : ℝ × ℝ) (hp : p ∈ build_density_curve (-4) 4 1000) :
    -4 ≤ p.1 ∧ p.1 ≤ 4 := by
  obtain ⟨i, hi, rfl⟩ := (mem_build_density_curve p).mp hp
  exact sampleX_bounds i (by omega)

/-- Claim C1: for every probability q strictly inside (0,1), `order_to_value`
succeeds and applying `value_to_order` to its result returns q exactly (hence
within 1e-6 at every test point). -/
theorem claim_round_trip (q : ℝ) (h0 : 0 < q) (h1 : q < 1) :
    ∃ x : ℝ, order_to_value q = Except.ok x ∧ value_to_order x = q ∧
      |value_to_order x - q| ≤ 1 / 1000000 := by
  refine ⟨probit q, order_to_value_ok q h0 h1, value_to_order_probit q h0 h1, ?_⟩
  rw [value_to_order_probit q h0 h1]
  simp

theorem claim_round_trip_witness :
    (0 : ℝ) < 0.25 ∧ (0.25 : ℝ) < 1 ∧
      ∃ x : ℝ, order_to_value 0.25 = Except.ok x ∧ value_to_order x = 0.25 ∧
        |value_to_order x - 0.25| ≤ 1 / 1000000 :=
  ⟨by norm_num, by norm_num, claim_round_trip 0.25 (by norm_num) (by norm_num)⟩

/-- Claim C2: `order_to_value` produces the `DomainError` exactly when q ≤ 0 or
q ≥ 1 (so it is propagated unchanged in the `Except` result); in particular at
q = 0 and q = 1; `DomainError.domain` is the only error value of the error
type. -/
theorem claim_domain_error :
    (∀ q : ℝ, order_to_value q = Except.error DomainError.domain ↔ q ≤ 0 ∨ 1 ≤ q) ∧
    order_to_value 0 = Except.error DomainError.domain ∧
    order_to_value 1 = Except.error DomainError.domain := by
  refine ⟨fun q => ?_, ?_, ?_⟩
  · unfold order_to_value
    by_cases h : q ≤ 0 ∨ 1 ≤ q
    · simp [h]
    · simp [h]
  · unfold order_to_value
    norm_num
  · unfold order_to_value
    norm_num

/-- Claim C3: `order_to_value` at 0.5 returns exactly 0, and `value_to_order`
at 0 returns exactly 0.5. -/
theorem claim_fixed_points :
    order_to_value 0.5 = Except.ok 0 ∧ value_to_order 0 = 0.5 := by
  constructor
  · rw [show (0.5 : ℝ) = 1 / 2 by norm_num,
      order_to_value_ok _ (by norm_num) (by norm_num), probit_half]
  · rw [value_to_order_zero]
    norm_num

/-- Claim C4: `order_to_value` is strictly increasing on (0,1): for q1 < q2
both inside (0,1) the returned quantile values satisfy x1 < x2. -/
theorem claim_strict_mono (q1 q2 : ℝ) (h0 : 0 < q1) (h12 : q1 < q2) (h1 : q2 < 1) :
    ∃ x1 x2 : ℝ, order_to_value q1 = Except.ok x1 ∧ order_to_value q2 = Except.ok x2 ∧
      x1 < x2 := by
  refine ⟨probit q1, probit q2, order_to_value_ok q1 h0 (by linarith),
    order_to_value_ok q2 (by linarith) h1, ?_⟩
  apply value_to_order_strictMono.lt_iff_lt.mp
  rw [value_to_order_probit q1 h0 (by linarith), value_to_order_probit q2 (by linarith) h1]
  exact h12

theorem claim_strict_mono_witness :
    (0 : ℝ) < 0.25 ∧ (0.25 : ℝ) < 0.5 ∧ (0.5 : ℝ) < 1 ∧
      ∃ x1 x2 : ℝ, order_to_value 0.25 = Except.ok x1 ∧
        order_to_value 0.5 = Except.ok x2 ∧ x1 < x2 :=
  ⟨by norm_num, by norm_num, by norm_num,
    claim_strict_mono 0.25 0.5 (by norm_num) (by norm_num) (by norm_num)⟩

/-- Claim C5: `value_to_order` is a total function on ℝ (so it raises no
error), it is monotonically increasing, and its value lies strictly inside
(0,1) for every real input. -/
theorem claim_cdf_range :
    Monotone value_to_order ∧ ∀ x : ℝ, 0 < value_to_order x ∧ value_to_order x < 1 :=
  ⟨value_to_order_mono, fun x => ⟨value_to_order_pos x, value_to_order_lt_one x⟩⟩

/-- Claim C6: with the defaults (-4, 4, 1000), the density curve has exactly
1000 samples, its x-values are the evenly spaced strictly increasing grid
from -4 to 4 with step 8/999, every y-value is the standard normal density at
its x (hence nonnegative), and the Riemann sum of y·Δx is within 1e-2 of 1. -/
theorem claim_density_curve :
    (build_density_curve (-4) 4 1000).length = 1000 ∧
    build_density_curve (-4) 4 1000
      = (List.range 1000).map (fun i => (sampleX i, normalPDF (sampleX i))) ∧
    (∀ i j : ℕ, i < j → j < 1000 → sampleX i < sampleX j) ∧
    (∀ i : ℕ, sampleX (i + 1) - sampleX i = 8 / 999) ∧
    sampleX 0 = -4 ∧ sampleX 999 = 4 ∧
    (∀ p ∈ build_density_curve (-4) 4 1000, p.2 = normalPDF p.1 ∧ 0 ≤ p.2) ∧
    |((build_density_curve (-4) 4 1000).map Prod.snd).sum * (8 / 999) - 1| ≤ 1 / 100 := by
  refine ⟨curve_length, build_density_curve_default, fun i j hij _ => sampleX_lt i j hij,
    sampleX_succ_sub, sampleX_zero, sampleX_999, ?_, riemann_sum_bounds⟩
  intro p hp
  obtain ⟨i, hi, rfl⟩ := (mem_build_density_curve p).mp hp
  exact ⟨rfl, normalPDF_nonneg _⟩

theorem claim_density_curve_witness :
    (0 : ℕ) < 1 ∧ (1 : ℕ) < 1000 ∧ sampleX 0 < sampleX 1 :=
  ⟨by norm_num, by norm_num, claim_density_curve.2.2.1 0 1 (by norm_num) (by norm_num)⟩

/-- Claim C7: `shade_left_of` returns exactly the samples with x ≤ cutoff, in
their original order (a sublist whose membership is characterised by the
x ≤ cutoff mask); on the default curve, cutoff -10 yields the empty region and
cutoff 10 yields the full curve. -/
theorem claim_shade_left :
    (∀ (curve : List (ℝ × ℝ)) (cutoff : ℝ),
        List.Sublist (shade_left_of curve cutoff) curve ∧
        ∀ p : ℝ × ℝ, p ∈ shade_left_of curve cutoff ↔ p ∈ curve ∧ p.1 ≤ cutoff) ∧
    shade_left_of (build_density_curve (-4) 4 1000) (-10) = [] ∧
    shade_left_of (build_density_curve (-4) 4 1000) 10 = build_density_curve (-4) 4 1000 := by
  refine ⟨fun curve cutoff => ⟨List.filter_sublist curve, fun p => ?_⟩, ?_, ?_⟩
  · unfold shade_left_of
    rw [List.mem_filter]
    simp only [decide_eq_true_eq]
  · unfold shade_left_of
    rw [List.filter_eq_nil_iff]
    intro p hp
    have hb := (curve_fst_bounds p hp).1
    simp only [decide_eq_true_eq]
    intro hle
    linarith
  · unfold shade_left_of
    rw [List.filter_eq_self]
    intro p hp
    have hb := (curve_fst_bounds p hp).2
    simp only [decide_eq_true_eq]
    linarith

/-- Claim C8: `order_to_value` at 0.975 returns a value within 1e-3 of 1.9600,
and `value_to_order` at -0.6745 is within 1e-3 of 0.2500. -/
theorem claim_reference_values :
    (∃ x : ℝ, order_to_value 0.975 = Except.ok x ∧ |x - 1.9600| ≤ 1 / 1000) ∧
    |value_to_order (-0.6745) - 0.2500| ≤ 1 / 1000 := by
  constructor
  · refine ⟨probit 0.975, order_to_value_ok _ (by norm_num) (by norm_num), ?_⟩
    have hlb : (1.959 : ℝ) < probit 0.975 :=
      lt_probit_of_lt _ _ (by norm_num) (by norm_num) value_to_order_1959_lt
    have hub : probit 0.975 < (1.961 : ℝ) :=
      probit_lt_of_lt _ _ (by norm_num) (by norm_num) value_to_order_1961_gt
    rw [abs_le]
    constructor <;> linarith
  · have hn : value_to_order (-(0.6745 : ℝ)) = 1 - value_to_order 0.6745 :=
      value_to_order_neg 0.6745
    have h1 := value_to_order_06745_lb
    have h2 := value_to_order_06745_ub
    rw [abs_le, hn]
    constructor <;> linarith

set_option maxRecDepth 8192 in
/-- Claim C9: for every cutoff, the shaded region is a contiguous index-aligned
leading segment of the density curve: it equals `take` of the curve at its own
length, and its i-th pair equals the curve's i-th pair. -/
theorem claim_region_aligned (cutoff : ℝ) :
    shade_left_of (build_density_curve (-4) 4 1000) cutoff
      = (build_density_curve (-4) 4 1000).take
          (shade_left_of (build_density_curve (-4) 4 1000) cutoff).length ∧
    ∀ i : Fin (shade_left_of (build_density_curve (-4) 4 1000) cutoff).length,
      (shade_left_of (build_density_curve (-4) 4 1000) cutoff).get i
        = (build_density_curve (-4) 4 1000).get
            ⟨i.1, lt_of_lt_of_le i.2 (List.length_filter_le _ _)⟩ := by
  refine ⟨shade_left_of_eq_take cutoff, ?_⟩
  rintro ⟨iv, hiv⟩
  have heq := shade_left_of_eq_take cutoff
  have hcur : iv < (build_density_curve (-4) 4 1000).length :=
    lt_of_lt_of_le hiv (List.length_filter_le _ _)
  simp only [List.get_eq_getElem]
  rw [List.getElem_of_eq heq hiv]
  exact (List.getElem_take' _ hcur hiv).symm

/-- Claim C10: for every slider probability q in [0.001, 0.999] the computed
cutoff x = Φ⁻¹(q) lies strictly inside (-4, 4), so the shaded region of the
default 1000-sample curve is nonempty and a proper leading part of it. -/
theorem claim_slider_region (q : ℝ) (hq1 : 0.001 ≤ q) (hq2 : q ≤ 0.999) :
    ∃ x : ℝ, order_to_value q = Except.ok x ∧ -4 < x ∧ x < 4 ∧
      shade_left_of (build_density_curve (-4) 4 1000) x ≠ [] ∧
      (shade_left_of (build_density_curve (-4) 4 1000) x).length
        < (build_density_curve (-4) 4 1000).length := by
  have h0 : (0 : ℝ) < q := by linarith [show (0 : ℝ) < 0.001 by norm_num]
  have h1 : q < 1 := by linarith [show (0.999 : ℝ) < 1 by norm_num]
  have hlb : (-4 : ℝ) < probit q :=
    lt_probit_of_lt q (-4) h0 h1 (lt_of_lt_of_le value_to_order_neg_four_lt hq1)
  have hub : probit q < 4 :=
    probit_lt_of_lt q 4 h0 h1 (lt_of_le_of_lt hq2 value_to_order_four_gt)
  refine ⟨probit q, order_to_value_ok q h0 h1, hlb, hub, ?_, ?_⟩
  · have hmem : ((-4 : ℝ), normalPDF (-4)) ∈ build_density_curve (-4) 4 1000 := by
      rw [mem_build_density_curve]
      exact ⟨0, by norm_num, by rw [sampleX_zero]⟩
    have hin : ((-4 : ℝ), normalPDF (-4))
        ∈ shade_left_of (build_density_curve (-4) 4 1000) (probit q) := by
      unfold shade_left_of
      rw [List.mem_filter]
      exact ⟨hmem, by simp only [decide_eq_true_eq]; linarith⟩
    exact List.ne_nil_of_mem hin
  · have hne : shade_left_of (build_density_curve (-4) 4 1000) (probit q)
        ≠ build_density_curve (-4) 4 1000 := by
      intro hcontra
      have hmem4 : ((4 : ℝ), normalPDF 4) ∈ build_density_curve (-4) 4 1000 := by
        rw [mem_build_density_curve]
        exact ⟨999, by norm_num, by rw [sampleX_999]⟩
      have hin4 : ((4 : ℝ), normalPDF 4)
          ∈ shade_left_of (build_density_curve (-4) 4 1000) (probit q) := by
        rw [hcontra]
        exact hmem4
      unfold shade_left_of at hin4
      rw [List.mem_filter] at hin4
      simp only [decide_eq_true_eq] at hin4
      linarith [hin4.2]
    apply lt_of_le_of_ne (List.length_filter_le _ _)
    intro hlencontra
    exact hne ((List.filter_sublist _).eq_of_length hlencontra)

theorem claim_slider_region_witness :
    (0.001 : ℝ) ≤ 0.25 ∧ (0.25 : ℝ) ≤ 0.999 ∧
      ∃ x : ℝ, order_to_value 0.25 = Except.ok x ∧ -4 < x ∧ x < 4 ∧
        shade_left_of (build_density_curve (-4) 4 1000) x ≠ [] ∧
        (shade_left_of (build_density_curve (-4) 4 1000) x).length
          < (build_density_curve (-4) 4 1000).length :=
  ⟨by norm_num, by norm_num, claim_slider_region 0.25 (by norm_num) (by norm_num)⟩
